import Mathlib

/-!
Shallow embedding of the Wizarr multi-server invite provisioning workflow.

The definitions below are translated from the repository source:
  * `app/models.py` — the data model (Invitation, MediaServer, User);
  * `app/web.py` (`connect`) — the legacy invite validation at POST /join;
  * `app/blueprints/public/routes.py` (`invite`, `join`, `password_prompt`)
    — invitation lookup and the multi-server password-provisioning loop;
  * `app/services/media/komga.py` and `app/services/media/romm.py`
    (`join`, `list_users`, `create_user`) — the vendor clients;
  * `app/blueprints/media_servers/routes.py` (`delete_server`).

Machine behaviour that lives outside the process (HTTP responses of the
vendor, commit failures of the local database) is passed in as explicit
oracle data, and the database session is modelled as an explicit state
value that each operation threads through.
-/

/-- A local account record, one row of the `user` table of `app/models.py`:
vendor-issued id in `token`, the invite code it came from, and the owning
server id (nullable in the schema, hence `Option`). -/
structure DbUser where
  uid : Nat
  token : String
  username : String
  email : String
  code : String
  serverId : Option Nat
  password : Option String := none
  expiresAt : Option Nat := none
deriving Repr, DecidableEq

/-- One row of the `media_server` table: id, vendor type string and name. -/
structure MediaServer where
  id : Nat
  server_type : String
  name : String
deriving Repr, DecidableEq

/-- One row of the `invitation` table of `app/models.py`.  The ordered
many-to-many `servers` collection is used by `app/blueprints/public/routes.py`
(`invitation.servers`); its association table is not among the source files,
so the collection is modelled from the spec, which describes it as the
ordered set of attached servers.  Expiry and the clock are modelled as
natural-number timestamps. -/
structure Invitation where
  code : String
  servers : List MediaServer
  server : Option MediaServer
  used : Bool
  unlimited : Bool
  expiresAt : Option Nat
  duration : Option Nat
deriving Repr, DecidableEq

/-- The mutable local database state threaded through every operation:
the `user` rows, a counter issuing fresh row ids, and the `used_by`
column of the invitation currently being redeemed. -/
structure DB where
  users : List DbUser
  nextUid : Nat
  invUsedBy : Option Nat
deriving Repr, DecidableEq

/-- One row of the legacy peewee `Invitations` table used by `app/web.py`. -/
structure LegacyInvitation where
  code : String
  used : Bool
  unlimited : Bool
  expiresAt : Option Nat
deriving Repr, DecidableEq

/-- Embedding of `Invitations.expires <= datetime.datetime.now()` from
`app/web.py`: a NULL expiry compares false. -/
def legacyExpired (i : LegacyInvitation) (now : Nat) : Bool :=
  match i.expiresAt with
  | some t => decide (t ≤ now)
  | none => false

/-- Embedding of the invite-code validation of `connect` (`app/web.py`,
POST /join): three `Invitations.select().where(...).exists()` guards run in
source order — code exists (exact string match), then used-and-not-unlimited,
then expired.  Returns the error message rendered into the template, or
`none` when the flow proceeds to the OAuth hand-off. -/
def connectCodeError (invs : List LegacyInvitation) (now : Nat) (code : String) :
    Option String :=
  if !(invs.any (fun i => i.code == code)) then
    some "That invite code does not exist."
  else if invs.any (fun i => i.code == code && i.used && !i.unlimited) then
    some "That invite code has already been used."
  else if invs.any (fun i => i.code == code && legacyExpired i now) then
    some "That invite code has expired."
  else
    none

/-- ASCII lowering applied character by character — the effect of
`lower()` on the ASCII codes the invite workflow uses. -/
def pyLower (s : String) : String :=
  String.mk (s.data.map Char.toLower)

/-- Whitespace stripping at both ends — the effect of `strip()`. -/
def pyStrip (s : String) : String :=
  String.mk (((s.data.dropWhile Char.isWhitespace).reverse.dropWhile
    Char.isWhitespace).reverse)

/-- Embedding of the invitation lookup shared by `invite`, `join` and
`password_prompt` in `app/blueprints/public/routes.py`:
`Invitation.query.filter(db.func.lower(Invitation.code) == code.lower()).first()`. -/
def findInvitation (invs : List Invitation) (code : String) : Option Invitation :=
  invs.find? (fun i => pyLower i.code == pyLower code)

/-- Embedding of `plex_user.email.split("@")[0]` — the characters before
the first at-sign, or the whole string when there is none. -/
def localPart (email : String) : String :=
  String.mk (email.data.takeWhile (fun c => c != '@'))

/-- Embedding of the username expression on line 155 of
`app/blueprints/public/routes.py`:
`plex_user.username if plex_user else (plex_user.email.split("@")[0] if plex_user else "wizarr")`.
The middle branch repeats the same guard on `plex_user`, so it is reproduced
here as a second match on the same value: it is unreachable, exactly as in
the source. -/
def derivedUsername (plexUser : Option DbUser) : String :=
  match plexUser with
  | some pu => pu.username
  | none =>
    match plexUser with
    | some pu => localPart pu.email
    | none => "wizarr"

/-- Embedding of `plex_user.email if plex_user else "user@example.com"`. -/
def derivedEmail (plexUser : Option DbUser) : String :=
  match plexUser with
  | some pu => pu.email
  | none => "user@example.com"

/-- Outcome of one per-server provisioning attempt, supplied as an oracle:
the vendor `create_user` call returns an id, or raises, or the local commit
that follows raises. -/
inductive StepOutcome where
  | ok (uid : String)
  | createRaises
  | commitRaises (uid : String)
deriving Repr, DecidableEq

/-- The vendor types the provisioning loop dispatches on
(`jellyfin`/`emby`, `audiobookshelf`, `romm`); any other non-plex type
falls into the `continue # unknown server type` arm and makes no call. -/
def dispatchedType (t : String) : Bool :=
  t == "jellyfin" || t == "emby" || t == "audiobookshelf" || t == "romm"

/-- The UsageLedger of the spec, as the claim and §4.5 of the spec define it
over this schema: a server is marked provisioned for an invitation exactly
when a local `user` row exists with that invite code and that server id. -/
def ledgerMarked (db : DB) (code : String) (sid : Nat) : Bool :=
  db.users.any (fun u => u.code == code && u.serverId == some sid)

/-- One iteration of the provisioning loop of `password_prompt`
(`app/blueprints/public/routes.py`, lines 149–186), returning the new
database state and the journal of vendor `create_user` calls (server ids, in
call order).  A plex server is skipped; a server of a dispatched type gets a
`create_user` call; on success a `user` row is added and committed and
`invitation.used_by = invitation.used_by or new_user` runs; on any raise the
session is rolled back, the error is logged and the loop moves on.
`mark_server_used` is not among the source files; per §4.5 of the spec the
ledger entry is the committed `user` row itself (see `ledgerMarked`). -/
def provisionStep (code _pw : String) (plexUser : Option DbUser)
    (outc : Nat → StepOutcome) (db : DB) (srv : MediaServer) : DB × List Nat :=
  if srv.server_type == "plex" then
    (db, [])
  else if dispatchedType srv.server_type then
    match outc srv.id with
    | .ok uid =>
        let newUser : DbUser :=
          { uid := db.nextUid, token := uid,
            username := derivedUsername plexUser, email := derivedEmail plexUser,
            code := code, serverId := some srv.id }
        ({ users := db.users ++ [newUser], nextUid := db.nextUid + 1,
           invUsedBy := match db.invUsedBy with
             | some u => some u
             | none => some newUser.uid }, [srv.id])
    | .createRaises => (db, [srv.id])
    | .commitRaises _ => (db, [srv.id])
  else
    (db, [])

/-- The provisioning loop of `password_prompt`: `for srv in invitation.servers`,
run sequentially in attachment order, accumulating the call journal. -/
def provisionLoop (code pw : String) (plexUser : Option DbUser)
    (outc : Nat → StepOutcome) (servers : List MediaServer) (db : DB) :
    DB × List Nat :=
  match servers with
  | [] => (db, [])
  | srv :: rest =>
      let r := provisionStep code pw plexUser outc db srv
      let r2 := provisionLoop code pw plexUser outc rest r.1
      (r2.1, r.2 ++ r2.2)

/-- The responses the POST branch of `password_prompt` can produce. -/
inductive PromptResponse where
  | invalidInvite
  | passwordFormError
  | redirectWizard (code : String)
deriving Repr, DecidableEq

/-- Embedding of the POST branch of `password_prompt`
(`app/blueprints/public/routes.py`, lines 113–189): look the invitation up
case-insensitively; find the plex server attached to it and the local plex
`user` row for this code; reject a short or mismatched password; substitute
the generated password (`genPw`, the oracle for `secrets.choice`) when the
generate box is ticked or the password is blank; then run the provisioning
loop over the attached servers and redirect to the wizard. -/
def password_prompt_post (invs : List Invitation) (outc : Nat → StepOutcome)
    (genPw code pw confirm : String) (generate : Bool) (db : DB) :
    PromptResponse × DB × List Nat :=
  match findInvitation invs code with
  | none => (.invalidInvite, db, [])
  | some inv =>
      let plexServer := inv.servers.find? (fun s => s.server_type == "plex")
      let plexUser := match plexServer with
        | some ps => db.users.find? (fun u => u.code == code && u.serverId == some ps.id)
        | none => none
      if pw != confirm || pw.length < 8 then
        (.passwordFormError, db, [])
      else
        let pw2 := if generate || pyStrip pw == "" then genPw else pw
        let r := provisionLoop code pw2 plexUser outc inv.servers db
        (.redirectWizard code, r.1, r.2)

/-- Character class `[A-Za-z0-9._%+-]` of the e-mail pattern shared by
`app/services/media/komga.py` and `app/services/media/romm.py`. -/
def isLocalChar (c : Char) : Bool :=
  c.isAlpha || c.isDigit || c == '.' || c == '_' || c == '%' || c == '+' || c == '-'

/-- Character class `[A-Za-z0-9.-]` of the same pattern. -/
def isDomainChar (c : Char) : Bool :=
  c.isAlpha || c.isDigit || c == '.' || c == '-'

/-- Split a character list at the first occurrence of `c`, returning the
parts before and after it, or `none` when `c` does not occur. -/
def splitFirst (c : Char) : List Char → Option (List Char × List Char)
  | [] => none
  | x :: xs =>
      if x == c then some ([], xs)
      else (splitFirst c xs).map (fun p => (x :: p.1, p.2))

/-- Split a character list at the last occurrence of `c`. -/
def splitLast (c : Char) (l : List Char) : Option (List Char × List Char) :=
  (splitFirst c l.reverse).map (fun p => (p.2.reverse, p.1.reverse))

/-- Embedding of `EMAIL_RE.fullmatch(email)` for the pattern
`[A-Za-z0-9._%+-]+@[A-Za-z0-9.-]+\.[A-Za-z]\x7b2,7\x7d` anchored at both
ends.  Neither class admits the at-sign, so a full match decomposes at the
unique at-sign; the top-level-domain run admits no dot, so when any
decomposition at a dot matches, the one at the last dot does. -/
def emailOk (email : String) : Bool :=
  match splitFirst '@' email.data with
  | none => false
  | some (localChars, rest) =>
      (!localChars.isEmpty) && localChars.all isLocalChar &&
      (match splitLast '.' rest with
       | none => false
       | some (dom, tld) =>
           (!dom.isEmpty) && dom.all isDomainChar &&
           tld.all (fun c => c.isAlpha) &&
           decide (2 ≤ tld.length) && decide (tld.length ≤ 7))

/-- The bound `8 <= len(password) <= 20` of both `join` implementations. -/
def pwLenOk (password : String) : Bool :=
  decide (8 ≤ password.length) && decide (password.length ≤ 20)

/-- Modelled from the spec: `is_invite_valid` lives in
`app/services/invites.py`, which is not among the source files.  §4.1 of the
spec defines it: look the code up case-insensitively; missing code gives
NOT_FOUND, then an expiry timestamp in the past gives EXPIRED, then a
single-use code already marked used gives ALREADY_USED; otherwise ok. -/
def is_invite_valid (invs : List Invitation) (now : Nat) (code : String) :
    Bool × String :=
  match findInvitation invs code with
  | none => (false, "NOT_FOUND")
  | some inv =>
      match inv.expiresAt with
      | some t =>
          if t ≤ now then (false, "EXPIRED")
          else if inv.used && !inv.unlimited then (false, "ALREADY_USED")
          else (true, "")
      | none =>
          if inv.used && !inv.unlimited then (false, "ALREADY_USED")
          else (true, "")

/-- Embedding of the duplicate check of both `join` implementations:
a `user` row on the same server whose username or e-mail matches. -/
def existingCollision (db : DB) (username email : String) (sid : Option Nat) : Bool :=
  db.users.any (fun u =>
    (u.username == username || u.email == email) && u.serverId == sid)

/-- Oracle for the remote and local effects inside the `try` block of a
`join` call: the result of the single vendor `create_user` request (`none`
when it raises), and whether the local steps that follow it complete through
`db.session.commit()` (`false` when any of them raises, which the source
catches, rolls back, and reports as the generic error message). -/
structure RemoteEnv where
  createResult : Option String
  localOk : Bool
deriving Repr, DecidableEq

/-- Embedding of `KomgaClient.join` (`app/services/media/komga.py`,
lines 119–186): e-mail format, password length, password match, invite
validity and same-server collision are checked in that order, each failure
returning at once with no vendor call and no database write; then the remote
account is created (exactly one vendor call, counted in the third component),
the invitation is looked up again by exact code (when that lookup returns
nothing the body raises on `inv.libraries` and is caught), the expires value
is derived from the invite duration, the local row is committed, and
`inv.used_by` is set.  Any raise after remote creation rolls the session
back and returns the generic error. -/
def komga_join (env : RemoteEnv) (invs : List Invitation) (now : Nat)
    (sid : Option Nat) (db : DB)
    (username password confirm email code : String) :
    (Bool × String) × DB × Nat :=
  if !(emailOk email) then ((false, "Invalid e-mail address."), db, 0)
  else if !(pwLenOk password) then ((false, "Password must be 8–20 characters."), db, 0)
  else if password != confirm then ((false, "Passwords do not match."), db, 0)
  else
    let v := is_invite_valid invs now code
    if !v.1 then ((false, v.2), db, 0)
    else if existingCollision db username email sid then
      ((false, "User or e-mail already exists."), db, 0)
    else
      match env.createResult with
      | none => ((false, "An unexpected error occurred."), db, 1)
      | some uid =>
          match invs.find? (fun i => i.code == code) with
          | none => ((false, "An unexpected error occurred."), db, 1)
          | some inv =>
              if env.localOk then
                let newUser : DbUser :=
                  { uid := db.nextUid, token := uid, username := username,
                    email := email, code := code,
                    serverId := inv.server.map (fun s => s.id),
                    expiresAt := inv.duration.map (fun d => now + d) }
                ((true, ""),
                 { users := db.users ++ [newUser], nextUid := db.nextUid + 1,
                   invUsedBy := some newUser.uid }, 1)
              else ((false, "An unexpected error occurred."), db, 1)

/-- Embedding of `RommClient.join` (`app/services/media/romm.py`,
lines 222–295): the same check order as `KomgaClient.join`; after remote
creation the invitation lookup may come back empty without raising (every
later use is guarded by `if inv`), the local row stores the raw password
(`_password_for_db` is the identity), and `inv.used_by` is set only when the
invitation row was found. -/
def romm_join (env : RemoteEnv) (invs : List Invitation) (now : Nat)
    (sid : Option Nat) (db : DB)
    (username password confirm email code : String) :
    (Bool × String) × DB × Nat :=
  if !(emailOk email) then ((false, "Invalid e-mail address."), db, 0)
  else if !(pwLenOk password) then ((false, "Password must be 8–20 characters."), db, 0)
  else if password != confirm then ((false, "Passwords do not match."), db, 0)
  else
    let v := is_invite_valid invs now code
    if !v.1 then ((false, v.2), db, 0)
    else if existingCollision db username email sid then
      ((false, "User or e-mail already exists."), db, 0)
    else
      match env.createResult with
      | none => ((false, "An unexpected error occurred."), db, 1)
      | some uid =>
          if env.localOk then
            let inv? := invs.find? (fun i => i.code == code)
            let newUser : DbUser :=
              { uid := db.nextUid, token := uid, username := username,
                email := email, code := code,
                serverId := (inv?.bind (fun i => i.server)).map (fun s => s.id),
                password := some password,
                expiresAt := (inv?.bind (fun i => i.duration)).map (fun d => now + d) }
            ((true, ""),
             { users := db.users ++ [newUser], nextUid := db.nextUid + 1,
               invUsedBy := match inv? with
                 | some _ => some newUser.uid
                 | none => db.invUsedBy }, 1)
          else ((false, "An unexpected error occurred."), db, 1)

/-- One entry of the dictionary `komga_users` that `KomgaClient.list_users`
builds from the vendor response: the vendor id and the account e-mail. -/
structure KomgaUpstream where
  id : String
  email : String
deriving Repr, DecidableEq

/-- Insert phase of `KomgaClient.list_users` (`app/services/media/komga.py`,
lines 76–87): for each upstream user, when no local row anywhere carries its
vendor id as token, a new row is added with the e-mail as username, the
placeholder code `empty` and this server id; then the session commits. -/
def komgaInsertPhase (sid : Option Nat) (ups : List KomgaUpstream) (db : DB) : DB :=
  match ups with
  | [] => db
  | u :: rest =>
      let db1 :=
        if db.users.any (fun x => x.token == u.id) then db
        else
          { db with
            users := db.users ++
              [{ uid := db.nextUid, token := u.id, username := u.email,
                 email := u.email, code := "empty", serverId := sid }],
            nextUid := db.nextUid + 1 }
      komgaInsertPhase sid rest db1

/-- Delete phase shared by both `list_users` implementations: every local
row of this server whose token is absent from the upstream id set is
deleted; then the session commits. -/
def reconcileDeletePhase (sid : Option Nat) (upIds : List String) (db : DB) : DB :=
  { db with
    users := db.users.filter (fun x => x.serverId != sid || upIds.contains x.token) }

/-- Embedding of `KomgaClient.list_users` (`app/services/media/komga.py`,
lines 70–106): insert unknown upstream users, delete departed local rows of
this server, and return the local rows of this server. -/
def komga_list_users (sid : Option Nat) (ups : List KomgaUpstream) (db : DB) :
    List DbUser × DB :=
  let db1 := komgaInsertPhase sid ups db
  let db2 := reconcileDeletePhase sid (ups.map (fun u => u.id)) db1
  (db2.users.filter (fun x => x.serverId == sid), db2)

/-- One entry of the dictionary `remote_by_id` that `RommClient.list_users`
builds: the key (vendor id, or the username when the id is missing or
falsy), the username and the e-mail.  A Python dictionary carries pairwise
distinct keys, so theorems about a full reconciliation may assume the ids
distinct. -/
structure RommUpstream where
  id : String
  username : String
  email : String
deriving Repr, DecidableEq

/-- Replace the first element satisfying `p` by its image under `f`,
leaving the rest of the list unchanged — the effect of mutating the row
returned by `.first()`. -/
def updateFirst (p : DbUser → Bool) (f : DbUser → DbUser) : List DbUser → List DbUser
  | [] => []
  | u :: us => if p u then f u :: us else u :: updateFirst p f us

/-- Upsert phase of `RommClient.list_users` (`app/services/media/romm.py`,
lines 119–136): for each upstream user, the first local row with this token
on this server is updated to the upstream username and e-mail; when none
exists a new row is added with the placeholder code and password `romm`;
then the session commits. -/
def rommUpsertPhase (sid : Option Nat) (ups : List RommUpstream) (db : DB) : DB :=
  match ups with
  | [] => db
  | u :: rest =>
      let matchRow := fun (x : DbUser) => x.token == u.id && x.serverId == sid
      let db1 :=
        if db.users.any matchRow then
          { db with
            users := updateFirst matchRow
              (fun x => { x with username := u.username, email := u.email }) db.users }
        else
          { db with
            users := db.users ++
              [{ uid := db.nextUid, token := u.id, username := u.username,
                 email := u.email, code := "romm", serverId := sid,
                 password := some "romm" }],
            nextUid := db.nextUid + 1 }
      rommUpsertPhase sid rest db1

/-- Embedding of `RommClient.list_users` (`app/services/media/romm.py`,
lines 83–148): upsert the upstream users, delete departed local rows of this
server, and return the local rows of this server. -/
def romm_list_users (sid : Option Nat) (ups : List RommUpstream) (db : DB) :
    List DbUser × DB :=
  let db1 := rommUpsertPhase sid ups db
  let db2 := reconcileDeletePhase sid (ups.map (fun u => u.id)) db1
  (db2.users.filter (fun x => x.serverId == sid), db2)

/-- Shape of one `create_user` request that `RommClient.create_user` sends:
the payload mode (query-string parameters on the first attempt, JSON body on
the fallback) and the payload fields. -/
inductive PayloadMode where
  | queryParams
  | jsonBody
deriving Repr, DecidableEq

/-- The payload of one RomM `create_user` request. -/
structure RommRequest where
  mode : PayloadMode
  username : String
  password : String
  email : Option String
  role : String
  passwordConfirm : Option String
deriving Repr, DecidableEq

/-- One HTTP response as `RommClient.create_user` observes it: the status
code and the two id fields the code reads from the JSON body (`id`, and
`user.id`); a body that is not JSON is the response with both fields
absent.  A raised `requests.HTTPError` whose `response` is None is
modelled as the whole response being `none`. -/
structure RommResp where
  status : Nat
  idField : Option String
  userIdField : Option String
deriving Repr, DecidableEq

/-- Python `or` on the two extracted id fields: an absent or empty first
field falls through to the second. -/
def pyOr (a b : Option String) : Option String :=
  match a with
  | some s => if s == "" then b else some s
  | none => b

/-- The id extraction at the end of `RommClient.create_user`:
`data.get("id") or data.get("user", \x7b\x7d).get("id")` over the final
response; no response at all gives no id. -/
def extractId (r : Option RommResp) : Option String :=
  match r with
  | some resp => pyOr resp.idField resp.userIdField
  | none => none

/-- Embedding of `RommClient.create_user` (`app/services/media/romm.py`,
lines 157–199).  `first` and `second` are the oracle responses of the two
possible POSTs.  The first attempt sends the payload as query-string
parameters; exactly when that response exists and its status is 422, one
fallback POST is sent as a JSON body with the added `passwordConfirm` field;
the result is the request journal and the id extracted from the final
response. -/
def romm_create_user (first second : Option RommResp)
    (username password : String) (email : Option String) :
    List RommRequest × Option String :=
  let req1 : RommRequest :=
    { mode := .queryParams, username := username, password := password,
      email := email, role := "VIEWER", passwordConfirm := none }
  match first with
  | some r1 =>
      if r1.status == 422 then
        let req2 : RommRequest := { req1 with mode := .jsonBody, passwordConfirm := some password }
        ([req1, req2], extractId second)
      else ([req1], extractId (some r1))
  | none => ([req1], extractId none)

/-- The admin-side database state that `delete_server` touches:
user rows, media-server rows and invitation rows. -/
structure AdminState where
  users : List DbUser
  servers : List MediaServer
  invitations : List Invitation
deriving Repr, DecidableEq

/-- Embedding of `delete_server` (`app/blueprints/media_servers/routes.py`,
lines 156–172): when the `delete` query argument carries a server id, the
user rows with that server id and then the media-server row itself are
deleted and the session commits; either way the response is empty with
status 204.  Invitation rows are not touched. -/
def delete_server (arg : Option Nat) (st : AdminState) : AdminState × Nat :=
  match arg with
  | some sid =>
      ({ users := st.users.filter (fun u => u.serverId != some sid),
         servers := st.servers.filter (fun s => s.id != sid),
         invitations := st.invitations }, 204)
  | none => (st, 204)

/-! Concrete instances used by the closed theorems below. -/

/-- A jellyfin server attached to the invitation of the C1 scenario. -/
def c1Server : MediaServer := { id := 1, server_type := "jellyfin", name := "Jelly" }

/-- A multi-server invitation whose jellyfin server is already provisioned. -/
def c1Invitation : Invitation :=
  { code := "MULTI1", servers := [c1Server], server := none,
    used := false, unlimited := true, expiresAt := none, duration := none }

/-- A database already holding the ledger row for code MULTI1 on server 1. -/
def c1Db : DB :=
  { users := [{ uid := 0, token := "jf-uid-1", username := "alice",
                email := "alice@x.com", code := "MULTI1", serverId := some 1 }],
    nextUid := 1, invUsedBy := some 0 }

/-- A vendor that accepts every `create_user` call. -/
def c1Outcome : Nat → StepOutcome := fun _ => .ok "jf-uid-2"

/-- A plex-account row whose stored username differs from the local part of
its e-mail address. -/
def c6PlexUser : DbUser :=
  { uid := 0, token := "plex-uid", username := "bobby", email := "bob@x.com",
    code := "PLEXJF", serverId := some 1 }

/-- A jellyfin server for the C6 scenario. -/
def c6Jelly : MediaServer := { id := 2, server_type := "jellyfin", name := "J" }

/-- A vendor that accepts the C6 `create_user` call. -/
def c6Outcome : Nat → StepOutcome := fun _ => .ok "jf-uid"

/-- A single-use legacy invitation that is both already used and expired. -/
def c7Invite : LegacyInvitation :=
  { code := "OLD123", used := true, unlimited := false, expiresAt := some 0 }

/-- A stored legacy invitation whose code is upper case. -/
def c9LegacyInvite : LegacyInvitation :=
  { code := "ABC123", used := false, unlimited := false, expiresAt := none }

/-- A stored invitation whose code is upper case, for the blueprint lookup. -/
def c9Invite : Invitation :=
  { code := "ABC123", servers := [], server := none, used := false,
    unlimited := false, expiresAt := none, duration := none }

/-- First server of the C2 partial-failure scenario. -/
def c2Server1 : MediaServer := { id := 1, server_type := "jellyfin", name := "One" }

/-- Second server of the C2 scenario — its vendor call will raise. -/
def c2Server2 : MediaServer := { id := 2, server_type := "jellyfin", name := "Two" }

/-- Third server of the C2 scenario. -/
def c2Server3 : MediaServer := { id := 3, server_type := "jellyfin", name := "Three" }

/-- An invitation attached to three servers. -/
def c2Invitation : Invitation :=
  { code := "TRIO", servers := [c2Server1, c2Server2, c2Server3], server := none,
    used := false, unlimited := true, expiresAt := none, duration := none }

/-- A vendor oracle under which the second server raises at `create_user`
and the other two succeed. -/
def c2Outcome : Nat → StepOutcome :=
  fun n => if n == 2 then .createRaises else .ok "uid-ok"

/-- An empty local database. -/
def c2Db : DB := { users := [], nextUid := 0, invUsedBy := none }

/-- A valid unlimited invitation for the join scenarios. -/
def c4Invitation : Invitation :=
  { code := "ABC123", servers := [], server := some c1Server, used := false,
    unlimited := true, expiresAt := none, duration := none }

/-- A join environment where the remote creation succeeds and a later local
step raises before the commit completes. -/
def c4Env : RemoteEnv := { createResult := some "uid-9", localOk := false }

/-- C7 (amended): the legacy `connect` validation checks, in order and
short-circuiting, code existence, then already-used for single-use codes,
then expiry; the EXPIRED message is produced only when the already-used
check did not fire, so an invitation both used and expired yields the
already-used message. -/
theorem C7_connect_check_order (invs : List LegacyInvitation) (now : Nat) (code : String) :
    (invs.any (fun i => i.code == code) = false →
      connectCodeError invs now code = some "That invite code does not exist.") ∧
    (invs.any (fun i => i.code == code) = true →
      invs.any (fun i => i.code == code && i.used && !i.unlimited) = true →
      connectCodeError invs now code = some "That invite code has already been used.") ∧
    (invs.any (fun i => i.code == code) = true →
      invs.any (fun i => i.code == code && i.used && !i.unlimited) = false →
      invs.any (fun i => i.code == code && legacyExpired i now) = true →
      connectCodeError invs now code = some "That invite code has expired.") ∧
    (invs.any (fun i => i.code == code) = true →
      invs.any (fun i => i.code == code && i.used && !i.unlimited) = false →
      invs.any (fun i => i.code == code && legacyExpired i now) = false →
      connectCodeError invs now code = none) := by
  constructor
  · intro h1
    simp [connectCodeError, h1]
  constructor
  · intro h1 h2
    simp [connectCodeError, h1, h2]
  constructor
  · intro h1 h2 h3
    simp [connectCodeError, h1, h2, h3]
  · intro h1 h2 h3
    simp [connectCodeError, h1, h2, h3]

/-- C7 counterexample: an invitation that is both already used (single-use)
and expired makes `connect` answer with the already-used message, not the
expired one — the claim that EXPIRED wins regardless of usage state fails. -/
theorem C7_expired_and_used_counterexample :
    legacyExpired c7Invite 5 = true ∧
    connectCodeError [c7Invite] 5 "OLD123" = some "That invite code has already been used." ∧
    connectCodeError [c7Invite] 5 "OLD123" ≠ some "That invite code has expired." := by
  decide

/-- C8: `RommClient.create_user` issues at most two vendor requests; exactly
when the first (query-parameter) attempt yields a response with status 422,
one fallback request is sent as a JSON body carrying the extra
`passwordConfirm` field, and the returned id is extracted from the final
response of the call. -/
theorem C8_create_user_fallback_retry (first second : Option RommResp)
    (username password : String) (email : Option String) :
    (romm_create_user first second username password email).1.length ≤ 2 ∧
    (∀ r, first = some r → r.status = 422 →
      (romm_create_user first second username password email).1 =
        [{ mode := .queryParams, username := username, password := password,
           email := email, role := "VIEWER", passwordConfirm := none },
         { mode := .jsonBody, username := username, password := password,
           email := email, role := "VIEWER", passwordConfirm := some password }] ∧
      (romm_create_user first second username password email).2 = extractId second) ∧
    (∀ r, first = some r → r.status ≠ 422 →
      (romm_create_user first second username password email).1 =
        [{ mode := .queryParams, username := username, password := password,
           email := email, role := "VIEWER", passwordConfirm := none }] ∧
      (romm_create_user first second username password email).2 = extractId first) ∧
    (first = none →
      (romm_create_user first second username password email).1 =
        [{ mode := .queryParams, username := username, password := password,
           email := email, role := "VIEWER", passwordConfirm := none }] ∧
      (romm_create_user first second username password email).2 = none) := by
  cases first with
  | none =>
      refine ⟨by simp [romm_create_user], ?_, ?_, ?_⟩
      · intro r hr
        simp at hr
      · intro r hr
        simp at hr
      · intro _
        simp [romm_create_user, extractId]
  | some r1 =>
      by_cases h : r1.status = 422
      · refine ⟨?_, ?_, ?_, ?_⟩
        · simp [romm_create_user, h]
        · intro r hr h422
          cases hr
          simp [romm_create_user, h]
        · intro r hr hne
          cases hr
          exact absurd h hne
        · intro hnone
          simp at hnone
      · refine ⟨?_, ?_, ?_, ?_⟩
        · simp [romm_create_user, h]
        · intro r hr h422
          injection hr with hr1
          subst hr1
          exact absurd h422 h
        · intro r hr _
          injection hr with hr1
          subst hr1
          simp [romm_create_user, h]
        · intro hnone
          simp at hnone

/-- C10: deleting a media server removes, in the same committed update,
exactly the local user rows carrying that server id, keeps every other user
row, never touches invitation rows, removes the server row itself, and the
endpoint answers 204 whether or not a server id was supplied (without an id
nothing is changed). -/
theorem C10_delete_server_frame (st : AdminState) (sid : Nat) :
    (delete_server (some sid) st).2 = 204 ∧
    (delete_server none st).2 = 204 ∧
    (delete_server none st).1 = st ∧
    (∀ u ∈ st.users, u.serverId = some sid → u ∉ (delete_server (some sid) st).1.users) ∧
    (∀ u ∈ st.users, u.serverId ≠ some sid → u ∈ (delete_server (some sid) st).1.users) ∧
    (∀ u ∈ (delete_server (some sid) st).1.users, u ∈ st.users ∧ u.serverId ≠ some sid) ∧
    (∀ s ∈ st.servers, s.id = sid → s ∉ (delete_server (some sid) st).1.servers) ∧
    (delete_server (some sid) st).1.invitations = st.invitations := by
  refine ⟨rfl, rfl, rfl, ?_, ?_, ?_, ?_, rfl⟩
  · intro u hu hsid
    simp [delete_server, List.mem_filter, hsid]
  · intro u hu hsid
    simp [delete_server, List.mem_filter, hu, hsid]
  · intro u hu
    simp only [delete_server, List.mem_filter] at hu
    exact ⟨hu.1, by simpa using hu.2⟩
  · intro s hs hsid
    simp [delete_server, List.mem_filter, hsid]

/-- C9 (amended): the blueprint lookup used by the invite landing page, the
blueprint join handler and the password prompt compares codes
case-insensitively, so a code differing only in case resolves to the stored
invitation (unique under case-insensitive comparison); the legacy `connect`
handler in `app/web.py` compares exactly, so a code matching no stored code
character-for-character is reported as non-existent there. -/
theorem C9_lookup_case_sensitivity (invs : List Invitation) (code : String)
    (i : Invitation) (hmem : i ∈ invs) (hci : pyLower i.code = pyLower code)
    (huniq : ∀ j ∈ invs, pyLower j.code = pyLower code → j = i) :
    findInvitation invs code = some i ∧
    (∀ (linvs : List LegacyInvitation) (now : Nat),
      (∀ j ∈ linvs, j.code ≠ code) →
      connectCodeError linvs now code = some "That invite code does not exist.") := by
  constructor
  · unfold findInvitation
    have hsome : (invs.find? (fun j => pyLower j.code == pyLower code)).isSome := by
      rw [List.find?_isSome]
      exact ⟨i, hmem, by simp [hci]⟩
    obtain ⟨j, hj⟩ := Option.isSome_iff_exists.mp hsome
    have hjp := List.find?_some hj
    have hjm : j ∈ invs := List.mem_of_find?_eq_some hj
    have hji : j = i := huniq j hjm (beq_iff_eq.mp hjp)
    rw [hj, hji]
  · intro linvs now h
    have hany : linvs.any (fun j => j.code == code) = false := by
      rw [List.any_eq_false]
      intro j hjm
      simp [h j hjm]
    simp [connectCodeError, hany]

/-- C9 witness: a stored invitation with code ABC123 queried as abc123. -/
theorem C9_lookup_case_sensitivity_witness :
    findInvitation [c9Invite] "abc123" = some c9Invite ∧
    (∀ (linvs : List LegacyInvitation) (now : Nat),
      (∀ j ∈ linvs, j.code ≠ "abc123") →
      connectCodeError linvs now "abc123" = some "That invite code does not exist.") :=
  C9_lookup_case_sensitivity [c9Invite] "abc123" c9Invite
    (by decide) (by decide) (by decide)

/-- C9 counterexample: the legacy `connect` entry point does not resolve a
stored code ABC123 when given abc123, although the two differ only in ASCII
letter case — so not every redemption entry point is case-insensitive. -/
theorem C9_legacy_join_case_sensitive_counterexample :
    pyLower "ABC123" = pyLower "abc123" ∧
    connectCodeError [c9LegacyInvite] 0 "abc123" = some "That invite code does not exist." := by
  decide

/-- C6: the username that the deferred password-provisioning step hands to
the remaining servers is the stored username of the plex account row, not
the local part of its e-mail address — the e-mail branch of the source
expression is unreachable — and the default literal wizarr is used when no
plex row is available.  Here the plex row has username bobby and e-mail
bob@x.com, and the jellyfin user is created as bobby, not bob. -/
theorem C6_username_from_stored_username_not_email :
    derivedUsername (some c6PlexUser) = "bobby" ∧
    localPart c6PlexUser.email = "bob" ∧
    derivedUsername (some c6PlexUser) ≠ localPart c6PlexUser.email ∧
    derivedUsername none = "wizarr" ∧
    ((provisionLoop "PLEXJF" "password123" (some c6PlexUser) c6Outcome [c6Jelly]
        { users := [], nextUid := 0, invUsedBy := none }).1.users.map
      (fun u => u.username)) = ["bobby"] := by
  decide

/-- C1: rerunning the password-provisioning step for an invitation whose
jellyfin server is already marked provisioned in the ledger (a user row with
this code and server id exists) still issues a vendor `create_user` call for
that server and appends a second local user row, instead of skipping the
already-provisioned server. -/
theorem C1_rerun_not_idempotent :
    ledgerMarked c1Db "MULTI1" 1 = true ∧
    (password_prompt_post [c1Invitation] c1Outcome "generated" "MULTI1"
        "password123" "password123" false c1Db).2.2 = [1] ∧
    (password_prompt_post [c1Invitation] c1Outcome "generated" "MULTI1"
        "password123" "password123" false c1Db).2.1.users.length =
      c1Db.users.length + 1 := by
  decide

/-- The journal of vendor calls the provisioning loop makes is one call per
attached server of a dispatched type, in attachment order — independent of
the per-server outcomes and of the database state. -/
theorem provisionLoop_calls (code pw : String) (plexUser : Option DbUser)
    (outc : Nat → StepOutcome) (servers : List MediaServer) (db : DB) :
    (provisionLoop code pw plexUser outc servers db).2 =
      (servers.filter (fun s => dispatchedType s.server_type)).map (fun s => s.id) := by
  induction servers generalizing db with
  | nil => rfl
  | cons srv rest ih =>
      by_cases hplex : (srv.server_type == "plex") = true
      · have hst : srv.server_type = "plex" := beq_iff_eq.mp hplex
        have hd : dispatchedType srv.server_type = false := by
          rw [hst]; rfl
        simp [provisionLoop, provisionStep, hplex, List.filter_cons, hd, ih]
      · rw [Bool.not_eq_true] at hplex
        by_cases hdisp : dispatchedType srv.server_type = true
        · cases houtc : outc srv.id <;>
            simp [provisionLoop, provisionStep, hplex, hdisp, houtc,
              List.filter_cons, ih]
        · rw [Bool.not_eq_true] at hdisp
          simp [provisionLoop, provisionStep, hplex, hdisp, List.filter_cons, ih]

/-- The provisioning loop only appends user rows, and every appended row
carries the loop code, the id of one of the processed servers, and a
successful outcome for that server id. -/
theorem provisionLoop_users (code pw : String) (plexUser : Option DbUser)
    (outc : Nat → StepOutcome) (servers : List MediaServer) (db : DB) :
    ∃ l, (provisionLoop code pw plexUser outc servers db).1.users = db.users ++ l ∧
      ∀ u ∈ l, u.code = code ∧ ∃ s ∈ servers, u.serverId = some s.id ∧
        ∃ uid, outc s.id = StepOutcome.ok uid := by
  induction servers generalizing db with
  | nil => exact ⟨[], by simp [provisionLoop], by simp⟩
  | cons srv rest ih =>
      by_cases hplex : (srv.server_type == "plex") = true
      · obtain ⟨l, hl, hprop⟩ := ih db
        refine ⟨l, ?_, ?_⟩
        · simpa [provisionLoop, provisionStep, hplex] using hl
        · intro u hu
          obtain ⟨h1, s, hs, h2⟩ := hprop u hu
          exact ⟨h1, s, List.mem_cons_of_mem _ hs, h2⟩
      · rw [Bool.not_eq_true] at hplex
        by_cases hdisp : dispatchedType srv.server_type = true
        · cases houtc : outc srv.id with
          | ok uid =>
              obtain ⟨l, hl, hprop⟩ := ih
                { users := db.users ++
                    [{ uid := db.nextUid, token := uid,
                       username := derivedUsername plexUser,
                       email := derivedEmail plexUser,
                       code := code, serverId := some srv.id }],
                  nextUid := db.nextUid + 1,
                  invUsedBy := match db.invUsedBy with
                    | some u => some u
                    | none => some db.nextUid }
              refine ⟨{ uid := db.nextUid, token := uid,
                        username := derivedUsername plexUser,
                        email := derivedEmail plexUser,
                        code := code, serverId := some srv.id } :: l, ?_, ?_⟩
              · rw [List.append_cons] at hl ⊢
                simpa [provisionLoop, provisionStep, hplex, hdisp, houtc] using hl
              · intro u hu
                rcases List.mem_cons.mp hu with h | h
                · subst h
                  exact ⟨rfl, srv, List.mem_cons_self _ _, rfl, uid, houtc⟩
                · obtain ⟨h1, s, hs, h2⟩ := hprop u h
                  exact ⟨h1, s, List.mem_cons_of_mem _ hs, h2⟩
          | createRaises =>
              obtain ⟨l, hl, hprop⟩ := ih db
              refine ⟨l, ?_, ?_⟩
              · simpa [provisionLoop, provisionStep, hplex, hdisp, houtc] using hl
              · intro u hu
                obtain ⟨h1, s, hs, h2⟩ := hprop u hu
                exact ⟨h1, s, List.mem_cons_of_mem _ hs, h2⟩
          | commitRaises uid =>
              obtain ⟨l, hl, hprop⟩ := ih db
              refine ⟨l, ?_, ?_⟩
              · simpa [provisionLoop, provisionStep, hplex, hdisp, houtc] using hl
              · intro u hu
                obtain ⟨h1, s, hs, h2⟩ := hprop u hu
                exact ⟨h1, s, List.mem_cons_of_mem _ hs, h2⟩
        · rw [Bool.not_eq_true] at hdisp
          obtain ⟨l, hl, hprop⟩ := ih db
          refine ⟨l, ?_, ?_⟩
          · simpa [provisionLoop, provisionStep, hplex, hdisp] using hl
          · intro u hu
            obtain ⟨h1, s, hs, h2⟩ := hprop u hu
            exact ⟨h1, s, List.mem_cons_of_mem _ hs, h2⟩

/-- C2: once the password form passes (matching password of at least 8
characters) for a found invitation, the POST branch of `password_prompt`
always reaches the wizard redirect; the loop issues exactly one vendor call
per attached server of a dispatched type, in attachment order, whatever the
per-server outcomes — so no failure blocks, aborts or retries anything —
and a server whose outcome is not a committed success keeps its ledger
entry exactly as it was (in particular unmarked when it was unmarked). -/
theorem C2_one_failure_never_blocks
    (invs : List Invitation) (outc : Nat → StepOutcome)
    (genPw code pw confirm : String) (generate : Bool) (db : DB) (inv : Invitation)
    (hfind : findInvitation invs code = some inv)
    (hconf : pw = confirm) (hlen : 8 ≤ pw.length) :
    (password_prompt_post invs outc genPw code pw confirm generate db).1 =
      PromptResponse.redirectWizard code ∧
    (password_prompt_post invs outc genPw code pw confirm generate db).2.2 =
      (inv.servers.filter (fun s => dispatchedType s.server_type)).map (fun s => s.id) ∧
    (∀ s ∈ inv.servers, (∀ uid, outc s.id ≠ StepOutcome.ok uid) →
      ledgerMarked (password_prompt_post invs outc genPw code pw confirm generate db).2.1
          code s.id = ledgerMarked db code s.id) := by
  have hbne : (pw != confirm) = false := by
    subst hconf
    simp
  have hlt : decide (pw.length < 8) = false := by
    simp
    omega
  have hred : password_prompt_post invs outc genPw code pw confirm generate db =
      (PromptResponse.redirectWizard code,
       (provisionLoop code (if generate || pyStrip pw == "" then genPw else pw)
         (match inv.servers.find? (fun s => s.server_type == "plex") with
          | some ps => db.users.find? (fun u => u.code == code && u.serverId == some ps.id)
          | none => none) outc inv.servers db).1,
       (provisionLoop code (if generate || pyStrip pw == "" then genPw else pw)
         (match inv.servers.find? (fun s => s.server_type == "plex") with
          | some ps => db.users.find? (fun u => u.code == code && u.serverId == some ps.id)
          | none => none) outc inv.servers db).2) := by
    rw [password_prompt_post, hfind]
    simp only [hbne, hlt]
    rfl
  rw [hred]
  refine ⟨rfl, provisionLoop_calls _ _ _ _ _ _, ?_⟩
  intro s hs hfail
  obtain ⟨l, hl, hprop⟩ := provisionLoop_users code
    (if generate || pyStrip pw == "" then genPw else pw)
    (match inv.servers.find? (fun sp => sp.server_type == "plex") with
     | some ps => db.users.find? (fun u => u.code == code && u.serverId == some ps.id)
     | none => none) outc inv.servers db
  simp only [ledgerMarked, hl, List.any_append]
  have hnone : l.any (fun u => u.code == code && u.serverId == some s.id) = false := by
    rw [List.any_eq_false]
    intro u hu
    obtain ⟨_, s2, _, hsid, uid, hok⟩ := hprop u hu
    intro hcontra
    rw [Bool.and_eq_true, beq_iff_eq, beq_iff_eq] at hcontra
    have hid : s2.id = s.id := by
      rw [hsid] at hcontra
      exact Option.some.inj hcontra.2
    exact hfail uid (hid ▸ hok)
  rw [hnone, Bool.or_false]

/-- C2 witness: an invitation attached to three jellyfin servers, of which
the second raises at `create_user`, still reaches the wizard redirect, calls
the vendor once for each of the three servers in order, and leaves the
failed server unmarked in the ledger. -/
theorem C2_one_failure_never_blocks_witness :
    (password_prompt_post [c2Invitation] c2Outcome "gen" "TRIO" "password123"
        "password123" false c2Db).1 = PromptResponse.redirectWizard "TRIO" ∧
    (password_prompt_post [c2Invitation] c2Outcome "gen" "TRIO" "password123"
        "password123" false c2Db).2.2 =
      (c2Invitation.servers.filter (fun s => dispatchedType s.server_type)).map
        (fun s => s.id) ∧
    (∀ s ∈ c2Invitation.servers, (∀ uid, c2Outcome s.id ≠ StepOutcome.ok uid) →
      ledgerMarked (password_prompt_post [c2Invitation] c2Outcome "gen" "TRIO"
          "password123" "password123" false c2Db).2.1 "TRIO" s.id =
        ledgerMarked c2Db "TRIO" s.id) :=
  C2_one_failure_never_blocks [c2Invitation] c2Outcome "gen" "TRIO" "password123"
    "password123" false c2Db c2Invitation (by decide) rfl (by decide)

/-- C3: both `join` implementations detect validation failures in the fixed
order e-mail format, password length within 8–20, password confirmation,
invite validity, same-server username-or-e-mail collision; the first failing
check returns false with its message while the database is untouched and no
vendor call is made; only when every check passes is the single remote
creation attempted. -/
theorem C3_join_validation_order (env : RemoteEnv) (invs : List Invitation)
    (now : Nat) (sid : Option Nat) (db : DB)
    (username password confirm email code : String) :
    (emailOk email = false →
      komga_join env invs now sid db username password confirm email code =
        ((false, "Invalid e-mail address."), db, 0) ∧
      romm_join env invs now sid db username password confirm email code =
        ((false, "Invalid e-mail address."), db, 0)) ∧
    (emailOk email = true → pwLenOk password = false →
      komga_join env invs now sid db username password confirm email code =
        ((false, "Password must be 8–20 characters."), db, 0) ∧
      romm_join env invs now sid db username password confirm email code =
        ((false, "Password must be 8–20 characters."), db, 0)) ∧
    (emailOk email = true → pwLenOk password = true → password ≠ confirm →
      komga_join env invs now sid db username password confirm email code =
        ((false, "Passwords do not match."), db, 0) ∧
      romm_join env invs now sid db username password confirm email code =
        ((false, "Passwords do not match."), db, 0)) ∧
    (∀ msg, emailOk email = true → pwLenOk password = true → password = confirm →
      is_invite_valid invs now code = (false, msg) →
      komga_join env invs now sid db username password confirm email code =
        ((false, msg), db, 0) ∧
      romm_join env invs now sid db username password confirm email code =
        ((false, msg), db, 0)) ∧
    (emailOk email = true → pwLenOk password = true → password = confirm →
      (is_invite_valid invs now code).1 = true →
      existingCollision db username email sid = true →
      komga_join env invs now sid db username password confirm email code =
        ((false, "User or e-mail already exists."), db, 0) ∧
      romm_join env invs now sid db username password confirm email code =
        ((false, "User or e-mail already exists."), db, 0)) ∧
    (emailOk email = true → pwLenOk password = true → password = confirm →
      (is_invite_valid invs now code).1 = true →
      existingCollision db username email sid = false →
      (komga_join env invs now sid db username password confirm email code).2.2 = 1 ∧
      (romm_join env invs now sid db username password confirm email code).2.2 = 1) := by
  refine ⟨?_, ?_, ?_, ?_, ?_, ?_⟩
  · intro h1
    constructor <;> simp [komga_join, romm_join, h1]
  · intro h1 h2
    constructor <;> simp [komga_join, romm_join, h1, h2]
  · intro h1 h2 h3
    have hb : (password != confirm) = true := bne_iff_ne.mpr h3
    constructor <;> simp [komga_join, romm_join, h1, h2, hb]
  · intro msg h1 h2 h3 h4
    subst h3
    constructor <;> simp [komga_join, romm_join, h1, h2, h4]
  · intro h1 h2 h3 h4 h5
    subst h3
    constructor <;> simp [komga_join, romm_join, h1, h2, h4, h5]
  · intro h1 h2 h3 h4 h5
    subst h3
    constructor
    · simp only [komga_join, h1, h2, h4, h5]
      simp only [bne_self_eq_false, Bool.not_false, if_true, Bool.not_true,
        Bool.false_eq_true, if_false]
      cases env.createResult with
      | none => simp
      | some uid =>
          cases hf : invs.find? (fun i => i.code == code) with
          | none => simp [hf]
          | some inv =>
              cases hl : env.localOk <;> simp [hf, hl]
    · simp only [romm_join, h1, h2, h4, h5]
      simp only [bne_self_eq_false, Bool.not_false, if_true, Bool.not_true,
        Bool.false_eq_true, if_false]
      cases env.createResult with
      | none => simp
      | some uid =>
          cases hl : env.localOk <;> simp [hl]

/-- C4: when the remote `create_user` succeeded inside a `join` call but a
later local step raises before the local state is fully committed, both
implementations roll the local transaction back — the database state is
returned unchanged, so no partially-written rows persist — and answer false
with the generic unexpected-error message; the single remote call is not
retried (the journal still counts exactly one vendor call). -/
theorem C4_join_rolls_back_after_remote_create (env : RemoteEnv)
    (invs : List Invitation) (now : Nat) (sid : Option Nat) (db : DB)
    (username password confirm email code uid : String)
    (hemail : emailOk email = true) (hlen : pwLenOk password = true)
    (hconf : password = confirm)
    (hvalid : (is_invite_valid invs now code).1 = true)
    (hcol : existingCollision db username email sid = false)
    (hcreate : env.createResult = some uid)
    (hfail : env.localOk = false) :
    komga_join env invs now sid db username password confirm email code =
      ((false, "An unexpected error occurred."), db, 1) ∧
    romm_join env invs now sid db username password confirm email code =
      ((false, "An unexpected error occurred."), db, 1) := by
  subst hconf
  constructor
  · simp only [komga_join, hemail, hlen, hvalid, hcol, hcreate, hfail]
    simp only [bne_self_eq_false, Bool.not_false, if_true, Bool.not_true,
      Bool.false_eq_true, if_false]
    cases hf : invs.find? (fun i => i.code == code) <;> simp [hf]
  · simp [romm_join, hemail, hlen, hvalid, hcol, hcreate, hfail]

/-- C4 witness: a concrete join with a valid invitation, remote creation
succeeding and the local commit failing returns the generic error, leaves
the empty database empty and makes exactly one vendor call. -/
theorem C4_join_rolls_back_witness :
    komga_join c4Env [c4Invitation] 0 (some 1) c2Db "alice" "password123"
        "password123" "alice@example.com" "ABC123" =
      ((false, "An unexpected error occurred."), c2Db, 1) ∧
    romm_join c4Env [c4Invitation] 0 (some 1) c2Db "alice" "password123"
        "password123" "alice@example.com" "ABC123" =
      ((false, "An unexpected error occurred."), c2Db, 1) :=
  C4_join_rolls_back_after_remote_create c4Env [c4Invitation] 0 (some 1) c2Db
    "alice" "password123" "password123" "alice@example.com" "ABC123" "uid-9"
    (by decide) (by decide) rfl (by decide) (by decide) rfl rfl

/-- A boolean filter applied twice keeps exactly what one application keeps. -/
theorem filter_self_idem {α : Type} (p : α → Bool) (l : List α) :
    (l.filter p).filter p = l.filter p := by
  rw [List.filter_filter]
  exact List.filter_congr (fun a _ => by rw [Bool.and_self])

/-- The Komga insert phase only appends rows. -/
theorem komgaInsertPhase_users_append (sid : Option Nat) (ups : List KomgaUpstream)
    (db : DB) : ∃ l, (komgaInsertPhase sid ups db).users = db.users ++ l := by
  induction ups generalizing db with
  | nil => exact ⟨[], by simp [komgaInsertPhase]⟩
  | cons u rest ih =>
      cases hk : db.users.any (fun x => x.token == u.id) with
      | true =>
          obtain ⟨l, hl⟩ := ih db
          exact ⟨l, by simpa [komgaInsertPhase, hk] using hl⟩
      | false =>
          obtain ⟨l, hl⟩ := ih
            { db with
              users := db.users ++
                [{ uid := db.nextUid, token := u.id, username := u.email,
                   email := u.email, code := "empty", serverId := sid }],
              nextUid := db.nextUid + 1 }
          refine ⟨{ uid := db.nextUid, token := u.id, username := u.email,
                    email := u.email, code := "empty", serverId := sid } :: l, ?_⟩
          rw [List.append_cons]
          simpa [komgaInsertPhase, hk] using hl

/-- A token already present survives the Komga insert phase. -/
theorem komgaInsertPhase_preserves_token (sid : Option Nat)
    (ups : List KomgaUpstream) (db : DB) (t : String)
    (h : db.users.any (fun x => x.token == t) = true) :
    (komgaInsertPhase sid ups db).users.any (fun x => x.token == t) = true := by
  obtain ⟨l, hl⟩ := komgaInsertPhase_users_append sid ups db
  rw [hl, List.any_append, h, Bool.true_or]

/-- After the Komga insert phase every upstream id has a local row. -/
theorem komgaInsertPhase_mem (sid : Option Nat) (ups : List KomgaUpstream)
    (db : DB) : ∀ u ∈ ups,
    (komgaInsertPhase sid ups db).users.any (fun x => x.token == u.id) = true := by
  induction ups generalizing db with
  | nil => simp
  | cons v rest ih =>
      intro u hu
      cases hk : db.users.any (fun x => x.token == v.id) with
      | true =>
          rw [show komgaInsertPhase sid (v :: rest) db = komgaInsertPhase sid rest db
            from by simp [komgaInsertPhase, hk]]
          rcases List.mem_cons.mp hu with h | h
          · subst h
            exact komgaInsertPhase_preserves_token sid rest db u.id hk
          · exact ih db u h
      | false =>
          rw [show komgaInsertPhase sid (v :: rest) db = komgaInsertPhase sid rest
              { db with
                users := db.users ++
                  [{ uid := db.nextUid, token := v.id, username := v.email,
                     email := v.email, code := "empty", serverId := sid }],
                nextUid := db.nextUid + 1 }
            from by simp [komgaInsertPhase, hk]]
          rcases List.mem_cons.mp hu with h | h
          · subst h
            apply komgaInsertPhase_preserves_token
            simp [List.any_append]
          · exact ih _ u h

/-- The Komga insert phase does nothing when every upstream id is already
known locally. -/
theorem komgaInsertPhase_fixed (sid : Option Nat) (ups : List KomgaUpstream)
    (db : DB) (h : ∀ u ∈ ups, db.users.any (fun x => x.token == u.id) = true) :
    komgaInsertPhase sid ups db = db := by
  induction ups with
  | nil => rfl
  | cons u rest ih =>
      rw [show komgaInsertPhase sid (u :: rest) db = komgaInsertPhase sid rest db
        from by simp [komgaInsertPhase, h u (List.mem_cons_self u rest)]]
      exact ih (fun v hv => h v (List.mem_cons_of_mem _ hv))

/-- A row whose token is in the upstream id list survives the delete phase. -/
theorem reconcileDeletePhase_preserves (sid : Option Nat) (upIds : List String)
    (db : DB) (t : String) (ht : t ∈ upIds)
    (h : db.users.any (fun x => x.token == t) = true) :
    (reconcileDeletePhase sid upIds db).users.any (fun x => x.token == t) = true := by
  rw [List.any_eq_true] at h ⊢
  obtain ⟨x, hx, hxt⟩ := h
  refine ⟨x, ?_, hxt⟩
  simp only [reconcileDeletePhase, List.mem_filter]
  refine ⟨hx, ?_⟩
  have hxt2 : x.token = t := beq_iff_eq.mp hxt
  have hc : upIds.contains x.token = true := by
    rw [hxt2]
    simp [List.contains, List.elem_iff, ht]
  rw [hc, Bool.or_true]

/-- Applying the delete phase twice with the same upstream ids equals
applying it once. -/
theorem reconcileDeletePhase_idem (sid : Option Nat) (upIds : List String)
    (db : DB) :
    reconcileDeletePhase sid upIds (reconcileDeletePhase sid upIds db) =
      reconcileDeletePhase sid upIds db := by
  simp only [reconcileDeletePhase]
  rw [filter_self_idem]

/-- The Komga reconciliation is idempotent: a second call on the state the
first call left behind returns the same list and the same state. -/
theorem komga_list_users_idem (sid : Option Nat) (ups : List KomgaUpstream)
    (db : DB) :
    komga_list_users sid ups ((komga_list_users sid ups db).2) =
      komga_list_users sid ups db := by
  have hpres : ∀ u ∈ ups,
      ((komga_list_users sid ups db).2).users.any (fun x => x.token == u.id) = true := by
    intro u hu
    have h1 := komgaInsertPhase_mem sid ups db u hu
    simpa [komga_list_users] using
      reconcileDeletePhase_preserves sid (ups.map (fun v => v.id))
        (komgaInsertPhase sid ups db) u.id (List.mem_map_of_mem _ hu) h1
  have hfix := komgaInsertPhase_fixed sid ups _ hpres
  have hdel : reconcileDeletePhase sid (ups.map (fun v => v.id))
      ((komga_list_users sid ups db).2) = (komga_list_users sid ups db).2 := by
    simp only [komga_list_users]
    exact reconcileDeletePhase_idem sid _ _
  show (let db1 := komgaInsertPhase sid ups ((komga_list_users sid ups db).2)
        let db2 := reconcileDeletePhase sid (ups.map (fun u => u.id)) db1
        (db2.users.filter (fun x => x.serverId == sid), db2)) =
      komga_list_users sid ups db
  simp only [hfix, hdel]
  rfl

/-- Updating the first match does nothing when the update fixes that match. -/
theorem updateFirst_eq_self (p : DbUser → Bool) (f : DbUser → DbUser)
    (l : List DbUser) (x : DbUser) (hf : l.find? p = some x) (hx : f x = x) :
    updateFirst p f l = l := by
  induction l with
  | nil => simp at hf
  | cons a t ih =>
      cases hp : p a with
      | true =>
          rw [List.find?_cons_of_pos t hp] at hf
          have hax : a = x := Option.some.inj hf
          subst hax
          simp [updateFirst, hp, hx]
      | false =>
          rw [List.find?_cons_of_neg t (by simp [hp])] at hf
          simp [updateFirst, hp, ih hf]

/-- Finding with the updated predicate after updating the first match. -/
theorem find?_updateFirst_same (p : DbUser → Bool) (f : DbUser → DbUser)
    (l : List DbUser) (hpf : ∀ x, p (f x) = p x) :
    (updateFirst p f l).find? p = (l.find? p).map f := by
  induction l with
  | nil => simp [updateFirst]
  | cons a t ih =>
      cases hp : p a with
      | true =>
          rw [List.find?_cons_of_pos t hp]
          simp only [updateFirst, hp, if_true]
          rw [List.find?_cons_of_pos t (by rw [hpf, hp])]
          rfl
      | false =>
          rw [List.find?_cons_of_neg t (by simp [hp])]
          simp only [updateFirst, hp, Bool.false_eq_true, if_false]
          rw [List.find?_cons_of_neg _ (by simp [hp])]
          exact ih

/-- Updating first matches of a disjoint predicate leaves a search
untouched. -/
theorem find?_updateFirst_other (p q : DbUser → Bool) (f : DbUser → DbUser)
    (l : List DbUser) (hdisj : ∀ x, p x = true → q x = false)
    (hqf : ∀ x, q (f x) = q x) :
    (updateFirst p f l).find? q = l.find? q := by
  induction l with
  | nil => simp [updateFirst]
  | cons a t ih =>
      cases hp : p a with
      | true =>
          simp only [updateFirst, hp, if_true]
          rw [List.find?_cons_of_neg t (by rw [hqf, hdisj a hp]; simp),
            List.find?_cons_of_neg t (by rw [hdisj a hp]; simp)]
      | false =>
          simp only [updateFirst, hp, Bool.false_eq_true, if_false]
          cases hq : q a with
          | true =>
              rw [List.find?_cons_of_pos _ hq, List.find?_cons_of_pos _ hq]
          | false =>
              rw [List.find?_cons_of_neg _ (by simp [hq]),
                List.find?_cons_of_neg _ (by simp [hq])]
              exact ih

/-- Updating first matches never changes searches that do not look at the
updated fields. -/
theorem any_updateFirst (p q : DbUser → Bool) (f : DbUser → DbUser)
    (l : List DbUser) (hqf : ∀ x, q (f x) = q x) :
    (updateFirst p f l).any q = l.any q := by
  induction l with
  | nil => rfl
  | cons a t ih =>
      cases hp : p a with
      | true => simp [updateFirst, hp, hqf]
      | false => simp [updateFirst, hp, ih]

/-- A filter that keeps every row a search matches leaves that search
untouched. -/
theorem find?_filter_of_keep (q keep : DbUser → Bool) (l : List DbUser)
    (h : ∀ y, q y = true → keep y = true) :
    (l.filter keep).find? q = l.find? q := by
  induction l with
  | nil => rfl
  | cons a t ih =>
      cases hq : q a with
      | true =>
          rw [List.filter_cons_of_pos (h a hq), List.find?_cons_of_pos _ hq,
            List.find?_cons_of_pos _ hq]
      | false =>
          cases hk : keep a with
          | true =>
              rw [List.filter_cons_of_pos hk, List.find?_cons_of_neg _ (by simp [hq]),
                List.find?_cons_of_neg _ (by simp [hq])]
              exact ih
          | false =>
              rw [List.filter_cons_of_neg (by simp [hk]),
                List.find?_cons_of_neg _ (by simp [hq])]
              exact ih

/-- A (token, server) pair already present survives the RomM upsert phase:
updates keep token and server id, and inserts only append. -/
theorem rommUpsertPhase_preserves_any (sid : Option Nat) (ups : List RommUpstream)
    (db : DB) (t : String)
    (h : db.users.any (fun x => x.token == t && x.serverId == sid) = true) :
    (rommUpsertPhase sid ups db).users.any
      (fun x => x.token == t && x.serverId == sid) = true := by
  induction ups generalizing db with
  | nil => exact h
  | cons u rest ih =>
      cases hk : db.users.any (fun x => x.token == u.id && x.serverId == sid) with
      | true =>
          rw [show rommUpsertPhase sid (u :: rest) db = rommUpsertPhase sid rest
              { db with
                users := updateFirst
                          (fun x => x.token == u.id && x.serverId == sid)
                          (fun x => { x with username := u.username, email := u.email })
                          db.users }
            from by simp [rommUpsertPhase, hk]]
          apply ih
          rw [any_updateFirst]
          · exact h
          · intro x
            rfl
      | false =>
          rw [show rommUpsertPhase sid (u :: rest) db = rommUpsertPhase sid rest
              { db with
                users := db.users ++
                  [{ uid := db.nextUid, token := u.id, username := u.username,
                     email := u.email, code := "romm", serverId := sid,
                     password := some "romm" }],
                nextUid := db.nextUid + 1 }
            from by simp [rommUpsertPhase, hk]]
          apply ih
          rw [List.any_append, h, Bool.true_or]

/-- After the RomM upsert phase every upstream id has a local row on this
server. -/
theorem rommUpsertPhase_mem (sid : Option Nat) (ups : List RommUpstream)
    (db : DB) : ∀ u ∈ ups,
    (rommUpsertPhase sid ups db).users.any
      (fun x => x.token == u.id && x.serverId == sid) = true := by
  induction ups generalizing db with
  | nil => simp
  | cons v rest ih =>
      intro u hu
      cases hk : db.users.any (fun x => x.token == v.id && x.serverId == sid) with
      | true =>
          rw [show rommUpsertPhase sid (v :: rest) db = rommUpsertPhase sid rest
              { db with
                users := updateFirst
                          (fun x => x.token == v.id && x.serverId == sid)
                          (fun x => { x with username := v.username, email := v.email })
                          db.users }
            from by simp [rommUpsertPhase, hk]]
          rcases List.mem_cons.mp hu with h | h
          · subst h
            apply rommUpsertPhase_preserves_any
            rw [any_updateFirst]
            · exact hk
            · intro x
              rfl
          · exact ih _ u h
      | false =>
          rw [show rommUpsertPhase sid (v :: rest) db = rommUpsertPhase sid rest
              { db with
                users := db.users ++
                  [{ uid := db.nextUid, token := v.id, username := v.username,
                     email := v.email, code := "romm", serverId := sid,
                     password := some "romm" }],
                nextUid := db.nextUid + 1 }
            from by simp [rommUpsertPhase, hk]]
          rcases List.mem_cons.mp hu with h | h
          · subst h
            apply rommUpsertPhase_preserves_any
            simp [List.any_append]
          · exact ih _ u h

/-- Processing upstream users with other ids never disturbs the first local
row found for a given (token, server) pair. -/
theorem rommUpsertPhase_preserves_find? (sid : Option Nat)
    (rest : List RommUpstream) (db : DB) (t : String) (x : DbUser)
    (hne : ∀ u ∈ rest, u.id ≠ t)
    (h : db.users.find? (fun y => y.token == t && y.serverId == sid) = some x) :
    (rommUpsertPhase sid rest db).users.find?
      (fun y => y.token == t && y.serverId == sid) = some x := by
  induction rest generalizing db with
  | nil => exact h
  | cons u rest2 ih =>
      have hut : u.id ≠ t := hne u (List.mem_cons_self u rest2)
      have hdisj : ∀ y : DbUser, (y.token == u.id && y.serverId == sid) = true →
          (y.token == t && y.serverId == sid) = false := by
        intro y hy
        rw [Bool.and_eq_true] at hy
        have : y.token = u.id := beq_iff_eq.mp hy.1
        rw [Bool.and_eq_false_iff]
        left
        rw [beq_eq_false_iff_ne, this]
        exact hut
      cases hk : db.users.any (fun y => y.token == u.id && y.serverId == sid) with
      | true =>
          rw [show rommUpsertPhase sid (u :: rest2) db = rommUpsertPhase sid rest2
              { db with
                users := updateFirst
                          (fun y => y.token == u.id && y.serverId == sid)
                          (fun y => { y with username := u.username, email := u.email })
                          db.users }
            from by simp [rommUpsertPhase, hk]]
          apply ih _ (fun v hv => hne v (List.mem_cons_of_mem _ hv))
          rw [find?_updateFirst_other]
          · exact h
          · exact hdisj
          · intro y
            rfl
      | false =>
          rw [show rommUpsertPhase sid (u :: rest2) db = rommUpsertPhase sid rest2
              { db with
                users := db.users ++
                  [{ uid := db.nextUid, token := u.id, username := u.username,
                     email := u.email, code := "romm", serverId := sid,
                     password := some "romm" }],
                nextUid := db.nextUid + 1 }
            from by simp [rommUpsertPhase, hk]]
          apply ih _ (fun v hv => hne v (List.mem_cons_of_mem _ hv))
          rw [List.find?_append, h]
          rfl

/-- After a full RomM upsert pass over pairwise-distinct upstream ids, the
first local row for each upstream id on this server carries that upstream
username and e-mail. -/
theorem rommUpsertPhase_synced (sid : Option Nat) (ups : List RommUpstream)
    (db : DB) (hnd : (ups.map (fun u => u.id)).Nodup) : ∀ u ∈ ups,
    ∃ x, (rommUpsertPhase sid ups db).users.find?
        (fun y => y.token == u.id && y.serverId == sid) = some x ∧
      x.username = u.username ∧ x.email = u.email := by
  induction ups generalizing db with
  | nil => simp
  | cons v rest ih =>
      intro u hu
      rw [List.map_cons, List.nodup_cons] at hnd
      have hne : ∀ w ∈ rest, w.id ≠ v.id := by
        intro w hw heq
        exact hnd.1 (heq ▸ List.mem_map_of_mem _ hw)
      rcases List.mem_cons.mp hu with h | h
      · subst h
        cases hk : db.users.any (fun y => y.token == u.id && y.serverId == sid) with
        | true =>
            rw [show rommUpsertPhase sid (u :: rest) db = rommUpsertPhase sid rest
                { db with
                  users := updateFirst
                            (fun y => y.token == u.id && y.serverId == sid)
                            (fun y => { y with username := u.username, email := u.email })
                            db.users }
              from by simp [rommUpsertPhase, hk]]
            have hsome : (db.users.find?
                (fun y => y.token == u.id && y.serverId == sid)).isSome := by
              rw [List.find?_isSome]
              exact List.any_eq_true.mp hk
            obtain ⟨x0, hx0⟩ := Option.isSome_iff_exists.mp hsome
            refine ⟨{ x0 with username := u.username, email := u.email }, ?_, rfl, rfl⟩
            apply rommUpsertPhase_preserves_find? sid rest _ u.id _ hne
            rw [show (updateFirst (fun y => y.token == u.id && y.serverId == sid)
                (fun y => { y with username := u.username, email := u.email })
                db.users).find? (fun y => y.token == u.id && y.serverId == sid) =
                (db.users.find? (fun y => y.token == u.id && y.serverId == sid)).map
                  (fun y => { y with username := u.username, email := u.email })
              from find?_updateFirst_same _ _ _ (fun y => rfl), hx0]
            rfl
        | false =>
            rw [show rommUpsertPhase sid (u :: rest) db = rommUpsertPhase sid rest
                { db with
                  users := db.users ++
                    [{ uid := db.nextUid, token := u.id, username := u.username,
                       email := u.email, code := "romm", serverId := sid,
                       password := some "romm" }],
                  nextUid := db.nextUid + 1 }
              from by simp [rommUpsertPhase, hk]]
            refine ⟨{ uid := db.nextUid, token := u.id, username := u.username,
                      email := u.email, code := "romm", serverId := sid,
                      password := some "romm" }, ?_, rfl, rfl⟩
            apply rommUpsertPhase_preserves_find? sid rest _ u.id _ hne
            rw [List.find?_append,
              List.find?_eq_none.mpr (by
                intro y hy
                exact fun hcon => by
                  rw [List.any_eq_false] at hk
                  exact hk y hy hcon)]
            simp
      · cases hk : db.users.any (fun y => y.token == v.id && y.serverId == sid) with
        | true =>
            rw [show rommUpsertPhase sid (v :: rest) db = rommUpsertPhase sid rest
                { db with
                  users := updateFirst
                            (fun y => y.token == v.id && y.serverId == sid)
                            (fun y => { y with username := v.username, email := v.email })
                            db.users }
              from by simp [rommUpsertPhase, hk]]
            exact ih _ hnd.2 u h
        | false =>
            rw [show rommUpsertPhase sid (v :: rest) db = rommUpsertPhase sid rest
                { db with
                  users := db.users ++
                    [{ uid := db.nextUid, token := v.id, username := v.username,
                       email := v.email, code := "romm", serverId := sid,
                       password := some "romm" }],
                  nextUid := db.nextUid + 1 }
              from by simp [rommUpsertPhase, hk]]
            exact ih _ hnd.2 u h

/-- The RomM upsert pass does nothing when, for every upstream user, the
first local row for its (token, server) pair already carries its username
and e-mail. -/
theorem rommUpsertPhase_fixed (sid : Option Nat) (ups : List RommUpstream)
    (db : DB)
    (h : ∀ u ∈ ups, ∃ x, db.users.find?
        (fun y => y.token == u.id && y.serverId == sid) = some x ∧
      x.username = u.username ∧ x.email = u.email) :
    rommUpsertPhase sid ups db = db := by
  induction ups with
  | nil => rfl
  | cons u rest ih =>
      obtain ⟨x, hfind, hun, hem⟩ := h u (List.mem_cons_self u rest)
      have hany : db.users.any (fun y => y.token == u.id && y.serverId == sid) = true := by
        rw [List.any_eq_true]
        have hpx := List.find?_some hfind
        exact ⟨x, List.mem_of_find?_eq_some hfind, hpx⟩
      have hupd : updateFirst (fun y => y.token == u.id && y.serverId == sid)
          (fun y => { y with username := u.username, email := u.email })
          db.users = db.users := by
        apply updateFirst_eq_self _ _ _ x hfind
        cases x
        simp_all
      rw [show rommUpsertPhase sid (u :: rest) db = rommUpsertPhase sid rest
          { db with
            users := updateFirst
                      (fun y => y.token == u.id && y.serverId == sid)
                      (fun y => { y with username := u.username, email := u.email })
                      db.users }
        from by simp [rommUpsertPhase, hany]]
      rw [hupd]
      exact ih (fun v hv => h v (List.mem_cons_of_mem _ hv))

/-- The delete phase keeps the first local row of every upstream (token,
server) pair. -/
theorem reconcileDeletePhase_preserves_find? (sid : Option Nat)
    (upIds : List String) (db : DB) (t : String) (x : DbUser) (ht : t ∈ upIds)
    (h : db.users.find? (fun y => y.token == t && y.serverId == sid) = some x) :
    (reconcileDeletePhase sid upIds db).users.find?
      (fun y => y.token == t && y.serverId == sid) = some x := by
  simp only [reconcileDeletePhase]
  rw [find?_filter_of_keep]
  · exact h
  · intro y hy
    rw [Bool.and_eq_true] at hy
    have hyt : y.token = t := beq_iff_eq.mp hy.1
    have hc : upIds.contains y.token = true := by
      rw [hyt]
      simp [List.contains, List.elem_iff, ht]
    rw [hc, Bool.or_true]

/-- Every row of this server that survives the delete phase carries an
upstream token. -/
theorem reconcileDeletePhase_complete (sid : Option Nat) (upIds : List String)
    (db : DB) : ∀ x ∈ (reconcileDeletePhase sid upIds db).users,
    x.serverId = sid → x.token ∈ upIds := by
  intro x hx hsid
  simp only [reconcileDeletePhase, List.mem_filter] at hx
  rcases Bool.or_eq_true_iff.mp hx.2 with h | h
  · exact absurd hsid (bne_iff_ne.mp h)
  · exact List.elem_iff.mp h

/-- The RomM reconciliation is idempotent over a dictionary of upstream
users (pairwise-distinct ids): a second call on the state the first left
behind returns the same list and the same state. -/
theorem romm_list_users_idem (sid : Option Nat) (ups : List RommUpstream)
    (db : DB) (hnd : (ups.map (fun u => u.id)).Nodup) :
    romm_list_users sid ups ((romm_list_users sid ups db).2) =
      romm_list_users sid ups db := by
  have hsync : ∀ u ∈ ups, ∃ x,
      ((romm_list_users sid ups db).2).users.find?
        (fun y => y.token == u.id && y.serverId == sid) = some x ∧
      x.username = u.username ∧ x.email = u.email := by
    intro u hu
    obtain ⟨x, hfind, hun, hem⟩ := rommUpsertPhase_synced sid ups db hnd u hu
    refine ⟨x, ?_, hun, hem⟩
    simpa [romm_list_users] using
      reconcileDeletePhase_preserves_find? sid (ups.map (fun v => v.id))
        (rommUpsertPhase sid ups db) u.id x (List.mem_map_of_mem _ hu) hfind
  have hfix := rommUpsertPhase_fixed sid ups _ hsync
  have hdel : reconcileDeletePhase sid (ups.map (fun v => v.id))
      ((romm_list_users sid ups db).2) = (romm_list_users sid ups db).2 := by
    simp only [romm_list_users]
    exact reconcileDeletePhase_idem sid _ _
  show (let db1 := rommUpsertPhase sid ups ((romm_list_users sid ups db).2)
        let db2 := reconcileDeletePhase sid (ups.map (fun u => u.id)) db1
        (db2.users.filter (fun x => x.serverId == sid), db2)) =
      romm_list_users sid ups db
  simp only [hfix, hdel]
  rfl

/-- A (token, server) row with an upstream token survives the delete phase. -/
theorem reconcileDeletePhase_preserves_pair (sid : Option Nat)
    (upIds : List String) (db : DB) (t : String) (ht : t ∈ upIds)
    (h : db.users.any (fun x => x.token == t && x.serverId == sid) = true) :
    (reconcileDeletePhase sid upIds db).users.any
      (fun x => x.token == t && x.serverId == sid) = true := by
  rw [List.any_eq_true] at h ⊢
  obtain ⟨x, hx, hxt⟩ := h
  refine ⟨x, ?_, hxt⟩
  simp only [reconcileDeletePhase, List.mem_filter]
  refine ⟨hx, ?_⟩
  rw [Bool.and_eq_true] at hxt
  have hxt2 : x.token = t := beq_iff_eq.mp hxt.1
  have hc : upIds.contains x.token = true := by
    rw [hxt2]
    simp [List.contains, List.elem_iff, ht]
  rw [hc, Bool.or_true]

/-- C5: both `list_users` reconciliations are full diffs and idempotent.
After a call, every upstream user has a local row with its vendor id as
token (Komga checks prior presence across all servers, RomM per server, and
both insert what is missing); every remaining local row of this server
carries a token that is present upstream (departed rows are deleted); and a
second call against the same upstream set returns the same list and leaves
the whole local user table exactly as the first call left it — no duplicate
inserts, no spurious deletes.  The RomM idempotence conjunct assumes the
upstream ids pairwise distinct, which holds by construction because the
source builds them as keys of a dictionary. -/
theorem C5_list_users_full_diff_idempotent (sid : Option Nat)
    (kups : List KomgaUpstream) (rups : List RommUpstream) (kdb rdb : DB) :
    (∀ u ∈ kups, ∃ x ∈ (komga_list_users sid kups kdb).2.users, x.token = u.id) ∧
    (∀ x ∈ (komga_list_users sid kups kdb).2.users, x.serverId = sid →
      ∃ u ∈ kups, u.id = x.token) ∧
    komga_list_users sid kups ((komga_list_users sid kups kdb).2) =
      komga_list_users sid kups kdb ∧
    (∀ u ∈ rups, ∃ x ∈ (romm_list_users sid rups rdb).2.users, x.token = u.id) ∧
    (∀ x ∈ (romm_list_users sid rups rdb).2.users, x.serverId = sid →
      ∃ u ∈ rups, u.id = x.token) ∧
    ((rups.map (fun u => u.id)).Nodup →
      romm_list_users sid rups ((romm_list_users sid rups rdb).2) =
        romm_list_users sid rups rdb) := by
  refine ⟨?_, ?_, komga_list_users_idem sid kups kdb, ?_, ?_,
    fun hnd => romm_list_users_idem sid rups rdb hnd⟩
  · intro u hu
    have h1 := komgaInsertPhase_mem sid kups kdb u hu
    have h2 := reconcileDeletePhase_preserves sid (kups.map (fun v => v.id))
      (komgaInsertPhase sid kups kdb) u.id (List.mem_map_of_mem _ hu) h1
    rw [List.any_eq_true] at h2
    obtain ⟨x, hx, hxt⟩ := h2
    exact ⟨x, by simpa [komga_list_users] using hx, beq_iff_eq.mp hxt⟩
  · intro x hx hsid
    simp only [komga_list_users] at hx
    have := reconcileDeletePhase_complete sid (kups.map (fun v => v.id))
      (komgaInsertPhase sid kups kdb) x hx hsid
    obtain ⟨u, hu, hui⟩ := List.mem_map.mp this
    exact ⟨u, hu, hui⟩
  · intro u hu
    have h1 := rommUpsertPhase_mem sid rups rdb u hu
    have h2 := reconcileDeletePhase_preserves_pair sid (rups.map (fun v => v.id))
      (rommUpsertPhase sid rups rdb) u.id (List.mem_map_of_mem _ hu) h1
    rw [List.any_eq_true] at h2
    obtain ⟨x, hx, hxt⟩ := h2
    rw [Bool.and_eq_true] at hxt
    exact ⟨x, by simpa [romm_list_users] using hx, beq_iff_eq.mp hxt.1⟩
  · intro x hx hsid
    simp only [romm_list_users] at hx
    have := reconcileDeletePhase_complete sid (rups.map (fun v => v.id))
      (rommUpsertPhase sid rups rdb) x hx hsid
    obtain ⟨u, hu, hui⟩ := List.mem_map.mp this
    exact ⟨u, hu, hui⟩
